import Mathlib

/-!
Shallow embedding of the crust8 CHIP-8 engine (`chip8-engine` crate) in Lean 4.

Conventions of the embedding:
* Rust `u8` / `u16` / `usize` values are modelled as `Nat`; wrapping arithmetic
  is made explicit with `% 256`, and the `u8` type invariant of a memory or
  register read is encoded by reducing the stored value `% 256` at the read
  site where the source relies on the type bound (see `Word.new`).
* A Rust `assert!`, a `panic!`-branch, or an implicit slice/array bounds check
  that can fail is modelled by returning `Option`; `none` is a fatal fault.
* The process-wide randomness used by the store-random instruction
  (`fastrand::u8`) is modelled as an extra oracle byte passed into
  `Machine.tick`.
* Arrays behind a fixed-size Rust type (`[u8; 4096]`, `[bool; 2048]`,
  `[u8; 16]`, `[usize; 16]`) are modelled as functions from `Nat` (or
  `Fin 16`) with explicit index checks exactly where Rust performs a
  dynamic bounds check.
-/

namespace Crust8

/-! ## quirks.rs -/

structure Quirks where
  is_lazy_shift : Bool
  is_static_dump_index : Bool
deriving DecidableEq

def Quirks.active : Quirks := ⟨true, true⟩

def Quirks.inactive : Quirks := ⟨false, false⟩

def Quirks.from_flag (is_active : Bool) : Quirks :=
  if is_active then Quirks.active else Quirks.inactive

/-! ## registers.rs -/

def GENERAL_REGISTER_COUNT : Nat := 16

def FLAG_REGISTER_IDX : Nat := 0xF

/-- A validated general-register index (Rust `Register(usize)` whose
constructor asserts the index is below 16). -/
abbrev Register : Type := Fin 16

/-- Rust `Register::new`: the `assert!` on an out-of-range index is modelled
as `none`. -/
def Register.new (register : Nat) : Option Register :=
  if h : register < GENERAL_REGISTER_COUNT then some ⟨register, h⟩ else none

def Register.flag : Register := ⟨FLAG_REGISTER_IDX, by decide⟩

def Register.first : Register := ⟨0, by decide⟩

def Register.idx (r : Register) : Nat := r.val

structure Registers where
  general : Register → Nat
  index : Nat
  program_counter : Nat

def OFFSET_FONT : Nat := 0x050

def OFFSET_DATA : Nat := 0x200

def Registers.new : Registers :=
  { general := fun _ => 0, index := 0, program_counter := OFFSET_DATA }

def Registers.get_value (r : Registers) (register : Register) : Nat :=
  r.general register

def Registers.set_value (r : Registers) (register : Register) (value : Nat) : Registers :=
  { r with general := Function.update r.general register value }

/-- Rust `u8::wrapping_add` on register contents (`u8` values). -/
def Registers.add_value (r : Registers) (register : Register) (value : Nat) : Registers :=
  r.set_value register ((r.get_value register + value) % 256)

def Registers.copy_registers (r : Registers) (to_ from_ : Register) : Registers :=
  r.set_value to_ (r.get_value from_)

def Registers.or_registers (r : Registers) (to_ from_ : Register) : Registers :=
  r.set_value to_ (r.get_value to_ ||| r.get_value from_)

def Registers.and_registers (r : Registers) (to_ from_ : Register) : Registers :=
  r.set_value to_ (r.get_value to_ &&& r.get_value from_)

def Registers.xor_registers (r : Registers) (to_ from_ : Register) : Registers :=
  r.set_value to_ (r.get_value to_ ^^^ r.get_value from_)

def Registers.set_flag (r : Registers) (enable : Bool) : Registers :=
  r.set_value Register.flag (if enable then 1 else 0)

/-- Rust `add_registers`: the flag write happens before the destination
write, both computed from the operand values read up front. -/
def Registers.add_registers (r : Registers) (to_ from_ : Register) : Registers :=
  let to_val := r.get_value to_
  let from_val := r.get_value from_
  let r1 := r.set_flag (255 < to_val + from_val)
  r1.set_value to_ ((to_val + from_val) % 256)

/-- Rust `sub_registers`: for `u8` operands, the `i16` difference being
nonnegative is `from ≤ minuend`, and `u8::wrapping_sub` is `+ 256` then `% 256`. -/
def Registers.sub_registers (r : Registers) (to_ from_ : Register) : Registers :=
  let to_val := r.get_value to_
  let from_val := r.get_value from_
  let r1 := r.set_flag (from_val ≤ to_val)
  r1.set_value to_ ((to_val + 256 - from_val) % 256)

def Registers.sub_registers_reversed (r : Registers) (to_ from_ : Register) : Registers :=
  let to_val := r.get_value to_
  let from_val := r.get_value from_
  let r1 := r.set_flag (to_val ≤ from_val)
  r1.set_value to_ ((from_val + 256 - to_val) % 256)

/-- Rust `shr_registers`: with the lazy-shift quirk inactive the shifted value
is read from `from`, otherwise from `to_`; the flag gets the low bit and the
destination the value shifted right once. -/
def Registers.shr_registers (r : Registers) (to_ from_ : Register) (is_lazy_shift : Bool) : Registers :=
  let from_val := if is_lazy_shift = false then r.get_value from_ else r.get_value to_
  let r1 := r.set_flag (from_val &&& 1 ≠ 0)
  r1.set_value to_ (from_val / 2)

/-- Rust `shl_registers`: the flag gets the high bit (mask `0b1000_0000`) and
the destination the value shifted left once, truncated as `u8`. -/
def Registers.shl_registers (r : Registers) (to_ from_ : Register) (is_lazy_shift : Bool) : Registers :=
  let from_val := if is_lazy_shift = false then r.get_value from_ else r.get_value to_
  let r1 := r.set_flag (from_val &&& 0b10000000 ≠ 0)
  r1.set_value to_ (from_val * 2 % 256)

/-- Rust `dump`: the slice `general[0..=max]` as a list. -/
def Registers.dump (r : Registers) (max_register : Register) : List Nat :=
  (List.range (max_register.idx + 1)).map
    (fun i => r.general ⟨i % 16, Nat.mod_lt i (by decide)⟩)

/-- Rust `load`: writes `general[i] = bytes[i]` for each `i` below the length
of `bytes`; the indexing would fault if more than 16 bytes were supplied. -/
def Registers.load (r : Registers) (bytes : List Nat) : Option Registers :=
  if bytes.length ≤ 16 then
    some { r with general := fun i =>
      if h : i.val < bytes.length then bytes.get ⟨i.val, h⟩ else r.general i }
  else none

/-! ## stack.rs -/

def MAX_ELEMENTS : Nat := 16

structure Stack where
  elements : Fin 16 → Nat
  pointer : Nat

def Stack.new : Stack := { elements := fun _ => 0, pointer := 0 }

/-- Rust `push`: the `assert!(pointer < MAX_ELEMENTS)` is modelled as `none`
on a full stack. -/
def Stack.push (s : Stack) (program_counter : Nat) : Option Stack :=
  if h : s.pointer < MAX_ELEMENTS then
    some { elements := Function.update s.elements ⟨s.pointer, h⟩ program_counter,
           pointer := s.pointer + 1 }
  else none

/-- Rust `pop`: the `assert!(pointer > 0)` is modelled as `none` on an empty
stack; the subsequent array read carries its own bounds check. -/
def Stack.pop (s : Stack) : Option (Stack × Nat) :=
  if 0 < s.pointer then
    if h : s.pointer - 1 < 16 then
      some ({ s with pointer := s.pointer - 1 }, s.elements ⟨s.pointer - 1, h⟩)
    else none
  else none

/-- Consecutive pushes of a list of return addresses, left to right. -/
def Stack.pushList (s : Stack) : List Nat → Option Stack
  | [] => some s
  | a :: rest => (s.push a).bind (fun s1 => s1.pushList rest)

/-! ## timers.rs -/

structure Timers where
  delay : Nat
  sound : Nat
  time_until_tick : Nat
deriving DecidableEq

def Timers.new : Timers := { delay := 0, sound := 0, time_until_tick := 0 }

def Timers.tick (t : Timers) : Timers :=
  if t.time_until_tick ≠ 0 then
    { t with time_until_tick := t.time_until_tick - 1 }
  else
    { delay := if 0 < t.delay then t.delay - 1 else t.delay,
      sound := if 0 < t.sound then t.sound - 1 else t.sound,
      time_until_tick := 8 }

/-- Iterated timer ticks (one per engine step). -/
def Timers.tickN (t : Timers) : Nat → Timers
  | 0 => t
  | n + 1 => (t.tickN n).tick

/-! ## display.rs -/

def PIXELS_H : Nat := 64

def PIXELS_V : Nat := 32

def BUFFER_SIZE : Nat := PIXELS_H * PIXELS_V

structure Display where
  bits : Nat → Bool

def Display.new : Display := ⟨fun _ => false⟩

def Display.clear (_d : Display) : Display := ⟨fun _ => false⟩

/-- Rust `set_pixel`: out-of-grid coordinates are skipped (no write, no
collision); in-grid coordinates XOR the incoming bit into the buffer after a
bounds check on the linear index (the Rust array access). -/
def Display.set_pixel (d : Display) (x y : Nat) (value : Bool) : Option (Display × Bool) :=
  if x < PIXELS_H ∧ y < PIXELS_V then
    let index := PIXELS_H * y + x
    if index < BUFFER_SIZE then
      some (⟨Function.update d.bits index (xor (d.bits index) value)⟩,
            d.bits index && value)
    else none
  else some (d, false)

/-- Inner loop of `render_sprite` over the remaining column offsets
(`x in 0..8` in the source, materialized as `List.range 8`); `7 - x` selects
the bit, most significant bit leftmost. -/
def Display.renderBits (d : Display) (is_collision : Bool) (row : Nat) (start_x y : Nat) :
    List Nat → Option (Display × Bool)
  | [] => some (d, is_collision)
  | x :: xs => do
    let inverse := 7 - x
    let is_lit := Nat.testBit row inverse
    let r ← d.set_pixel (start_x + x) y is_lit
    Display.renderBits r.1 (is_collision || r.2) row start_x y xs

/-- Outer loop of `render_sprite` over the remaining sprite rows; `y` counts
rows already emitted. -/
def Display.renderRows (d : Display) (is_collision : Bool) (start_x start_y : Nat) :
    List Nat → Nat → Option (Display × Bool)
  | [], _ => some (d, is_collision)
  | row :: rest, y => do
    let r ← Display.renderBits d is_collision row start_x (start_y + y) (List.range 8)
    Display.renderRows r.1 r.2 start_x start_y rest (y + 1)

def Display.render_sprite (d : Display) (start_x start_y : Nat) (sprite : List Nat) :
    Option (Display × Bool) :=
  Display.renderRows d false start_x start_y sprite 0

/-- A set bit of sprite row `row` among the column offsets `xs` addresses the
in-grid pixel with linear index `j`. -/
def rowHit (start_x y row : Nat) (xs : List Nat) (j : Nat) : Prop :=
  ∃ c ∈ xs, start_x + c < PIXELS_H ∧ y < PIXELS_V ∧
    Nat.testBit row (7 - c) ∧ j = PIXELS_H * y + (start_x + c)

/-- A set bit of sprite row `row` among the column offsets `xs` lands on an
in-grid pixel of `d` that is currently set. -/
def rowColl (d : Display) (start_x y row : Nat) (xs : List Nat) : Prop :=
  ∃ c ∈ xs, start_x + c < PIXELS_H ∧ y < PIXELS_V ∧
    Nat.testBit row (7 - c) ∧ d.bits (PIXELS_H * y + (start_x + c)) = true

instance (start_x y row : Nat) (xs : List Nat) (j : Nat) :
    Decidable (rowHit start_x y row xs j) := by
  unfold rowHit; infer_instance

instance (d : Display) (start_x y row : Nat) (xs : List Nat) :
    Decidable (rowColl d start_x y row xs) := by
  unfold rowColl; infer_instance

/-- Some in-bounds set bit of the sprite addresses the pixel with linear
index `j` (rows below `start_y`, columns right of `start_x`). -/
def spriteHit (start_x : Nat) (start_y : Nat) : List Nat → Nat → Prop
  | [], _ => False
  | row :: rest, j =>
    rowHit start_x start_y row (List.range 8) j ∨ spriteHit start_x (start_y + 1) rest j

/-- Some in-bounds set bit of the sprite lands on a currently set pixel. -/
def spriteColl (d : Display) (start_x : Nat) (start_y : Nat) : List Nat → Prop
  | [] => False
  | row :: rest =>
    rowColl d start_x start_y row (List.range 8) ∨ spriteColl d start_x (start_y + 1) rest

instance spriteHitDec (start_x : Nat) : (start_y : Nat) → (rows : List Nat) → (j : Nat) →
    Decidable (spriteHit start_x start_y rows j)
  | _, [], _ => isFalse (fun h => h)
  | start_y, _ :: rest, j =>
    @instDecidableOr _ _ inferInstance (spriteHitDec start_x (start_y + 1) rest j)

instance spriteCollDec (d : Display) (start_x : Nat) : (start_y : Nat) → (rows : List Nat) →
    Decidable (spriteColl d start_x start_y rows)
  | _, [] => isFalse (fun h => h)
  | start_y, _ :: rest =>
    @instDecidableOr _ _ inferInstance (spriteCollDec d start_x (start_y + 1) rest)

/-! ## heap.rs -/

def MEMORY_SIZE : Nat := 4096

def SIGILS_LENGTH : Nat := 80

def FONT_SIGILS : List Nat := [
  0xF0, 0x90, 0x90, 0x90, 0xF0,
  0x20, 0x60, 0x20, 0x20, 0x70,
  0xF0, 0x10, 0xF0, 0x80, 0xF0,
  0xF0, 0x10, 0xF0, 0x10, 0xF0,
  0x90, 0x90, 0xF0, 0x10, 0x10,
  0xF0, 0x80, 0xF0, 0x10, 0xF0,
  0xF0, 0x80, 0xF0, 0x90, 0xF0,
  0xF0, 0x10, 0x20, 0x40, 0x40,
  0xF0, 0x90, 0xF0, 0x90, 0xF0,
  0xF0, 0x90, 0xF0, 0x10, 0xF0,
  0xF0, 0x90, 0xF0, 0x90, 0x90,
  0xE0, 0x90, 0xE0, 0x90, 0xE0,
  0xF0, 0x80, 0x80, 0x80, 0xF0,
  0xE0, 0x90, 0x90, 0x90, 0xE0,
  0xF0, 0x80, 0xF0, 0x80, 0xF0,
  0xF0, 0x80, 0xF0, 0x80, 0x80]

structure Heap where
  elements : Nat → Nat

/-- Rust `Heap::new`: zeroed memory with the font table at `OFFSET_FONT` and
the program image at `OFFSET_DATA` (the host contract keeps the program
within the 4096-byte array). -/
def Heap.new (program_bytes : List Nat) : Heap :=
  ⟨fun i =>
    if OFFSET_DATA ≤ i ∧ i < OFFSET_DATA + program_bytes.length then
      program_bytes.getD (i - OFFSET_DATA) 0
    else if OFFSET_FONT ≤ i ∧ i < OFFSET_FONT + SIGILS_LENGTH then
      FONT_SIGILS.getD (i - OFFSET_FONT) 0
    else 0⟩

def Heap.set_byte (h : Heap) (index value : Nat) : Option Heap :=
  if index < MEMORY_SIZE then
    some ⟨Function.update h.elements index value⟩
  else none

def Heap.set_bytes : Heap → Nat → List Nat → Option Heap
  | h, _, [] => some h
  | h, index, v :: vs => do
    let h1 ← h.set_byte index v
    Heap.set_bytes h1 (index + 1) vs

def Heap.set_as_decimal (h : Heap) (index value : Nat) : Option Heap := do
  let h1 ← h.set_byte (index + 0) (value / 100)
  let h2 ← h1.set_byte (index + 1) (value / 10 % 10)
  h2.set_byte (index + 2) (value % 100 % 10)

/-- Rust `get_bytes`: the inclusive slice `elements[index..=(index+len)]`,
faulting when its end is out of the 4096-byte array. -/
def Heap.get_bytes (h : Heap) (index len : Nat) : Option (List Nat) :=
  if index + len < MEMORY_SIZE then
    some ((List.range (len + 1)).map (fun i => h.elements (index + i)))
  else none

/-- Rust `get_sprite`: the slice `elements[index..index+height]`. -/
def Heap.get_sprite (h : Heap) (index : Nat) (sprite_height : Nat) : Option (List Nat) :=
  if index + sprite_height ≤ MEMORY_SIZE then
    some ((List.range sprite_height).map (fun i => h.elements (index + i)))
  else none

/-! ## word.rs and instruction.rs -/

/-- The big-endian 16-bit word at `pc`; the `% 256` on each byte read encodes
the `u8` bound carried by the Rust memory array type. -/
def wordAt (memory : Nat → Nat) (pc : Nat) : Nat :=
  (memory pc % 256) * 256 + memory (pc + 1) % 256

inductive Instruction where
  | Unimplemented (opcode : Nat)
  | EndProgram
  | ClearScreen
  | ReturnSubroutine
  | Goto (address : Nat)
  | CallSubroutine (address : Nat)
  | SkipIfValueEq (register : Register) (value : Nat)
  | SkipIfValueNe (register : Register) (value : Nat)
  | SkipIfRegistersEq (register_x register_y : Register)
  | RegisterValueStore (register : Register) (value : Nat)
  | RegisterValueAdd (register : Register) (value : Nat)
  | RegistersCopy (register_to register_from : Register)
  | RegistersOrEq (register_to register_from : Register)
  | RegistersAndEq (register_to register_from : Register)
  | RegistersXorEq (register_to register_from : Register)
  | RegistersAdd (register_to register_from : Register)
  | RegistersSub (register_to register_from : Register)
  | RegistersShiftRightEq (register_to register_from : Register)
  | RegistersSubReversed (register_to register_from : Register)
  | RegistersShiftLeftEq (register_to register_from : Register)
  | SkipIfRegistersNe (register_x register_y : Register)
  | IStoreAddress (address : Nat)
  | GotoOffsetted (address : Nat)
  | RegisterStoreRandom (register : Register) (mask : Nat)
  | DrawSprite (register_x register_y : Register) (sprite_height : Nat)
  | SkipIfKeyOn (register : Register)
  | SkipIfKeyOff (register : Register)
  | DelayTimerToRegister (register : Register)
  | WaitForAnyKey (register : Register)
  | RegisterToDelayTimer (register : Register)
  | RegisterToSoundTimer (register : Register)
  | IAddOffset (register : Register)
  | IStoreDigitAddress (register : Register)
  | HexToDecimal (register : Register)
  | RegistersDump (max_register : Register)
  | RegistersLoad (max_register : Register)
deriving DecidableEq

/-- Nibble `C` of a word (Rust `Word::c`). -/
def Word.c (w : Nat) : Nat := (w >>> 12) &&& 0xF

/-- Nibble `X` of a word as a register (Rust `Word::x`). -/
def Word.x (w : Nat) : Option Register := Register.new ((w >>> 8) &&& 0xF)

/-- Nibble `Y` of a word as a register (Rust `Word::y`). -/
def Word.y (w : Nat) : Option Register := Register.new ((w >>> 4) &&& 0xF)

def Word.n (w : Nat) : Nat := w &&& 0xF

def Word.nn (w : Nat) : Nat := w &&& 0xFF

def Word.nnn (w : Nat) : Nat := w &&& 0xFFF

/-- The dispatch of `Instruction::new` on an already-fetched word. The final
catch-all models the `Unreachable code` panic of the source, and every use of
a register nibble goes through `Register.new` (whose failed assertion is also
a fault). -/
def decodeWord (w : Nat) : Option Instruction :=
  match Word.c w with
  | 0x0 =>
    match Word.nnn w with
    | 0x000 | 0x0DE => some .EndProgram
    | 0x0E0 => some .ClearScreen
    | 0x0EE => some .ReturnSubroutine
    | _ => some (.Unimplemented w)
  | 0x1 => some (.Goto (Word.nnn w))
  | 0x2 => some (.CallSubroutine (Word.nnn w))
  | 0x3 => (Word.x w).map (fun r => .SkipIfValueEq r (Word.nn w))
  | 0x4 => (Word.x w).map (fun r => .SkipIfValueNe r (Word.nn w))
  | 0x5 => do
    let rx ← Word.x w
    let ry ← Word.y w
    pure (.SkipIfRegistersEq rx ry)
  | 0x6 => (Word.x w).map (fun r => .RegisterValueStore r (Word.nn w))
  | 0x7 => (Word.x w).map (fun r => .RegisterValueAdd r (Word.nn w))
  | 0x8 => do
    let register_to ← Word.x w
    let register_from ← Word.y w
    match Word.n w with
    | 0x0 => pure (.RegistersCopy register_to register_from)
    | 0x1 => pure (.RegistersOrEq register_to register_from)
    | 0x2 => pure (.RegistersAndEq register_to register_from)
    | 0x3 => pure (.RegistersXorEq register_to register_from)
    | 0x4 => pure (.RegistersAdd register_to register_from)
    | 0x5 => pure (.RegistersSub register_to register_from)
    | 0x6 => pure (.RegistersShiftRightEq register_to register_from)
    | 0x7 => pure (.RegistersSubReversed register_to register_from)
    | 0xE => pure (.RegistersShiftLeftEq register_to register_from)
    | _ => pure (.Unimplemented w)
  | 0x9 => do
    let rx ← Word.x w
    let ry ← Word.y w
    pure (.SkipIfRegistersNe rx ry)
  | 0xA => some (.IStoreAddress (Word.nnn w))
  | 0xB => some (.GotoOffsetted (Word.nnn w))
  | 0xC => (Word.x w).map (fun r => .RegisterStoreRandom r (Word.nn w))
  | 0xD => do
    let rx ← Word.x w
    let ry ← Word.y w
    pure (.DrawSprite rx ry (Word.n w))
  | 0xE =>
    match Word.nn w with
    | 0x9E => (Word.x w).map (fun r => .SkipIfKeyOn r)
    | 0xA1 => (Word.x w).map (fun r => .SkipIfKeyOff r)
    | _ => some (.Unimplemented w)
  | 0xF => do
    let register ← Word.x w
    match Word.nn w with
    | 0x07 => pure (.DelayTimerToRegister register)
    | 0x0A => pure (.WaitForAnyKey register)
    | 0x15 => pure (.RegisterToDelayTimer register)
    | 0x18 => pure (.RegisterToSoundTimer register)
    | 0x1E => pure (.IAddOffset register)
    | 0x29 => pure (.IStoreDigitAddress register)
    | 0x33 => pure (.HexToDecimal register)
    | 0x55 => pure (.RegistersDump register)
    | 0x65 => pure (.RegistersLoad register)
    | _ => pure (.Unimplemented w)
  | _ => none

/-- Rust `Instruction::new`: asserts two bytes are available at `pc` within
the supplied memory (of length `memLen`), then decodes the big-endian word. -/
def Instruction.new (memory : Nat → Nat) (memLen pc : Nat) : Option Instruction :=
  if pc + 1 < memLen then decodeWord (wordAt memory pc) else none

/-- Spec-side classifier of the opcode table (§4.4 of the source
documentation / spec §4.1): the encodings that match a known operation. Kept
as a separate definition, written from the spec's opcode families, so that
the decoder's "unimplemented" fallback can be compared against it. -/
def specKnownOpcode (w : Nat) : Bool :=
  match Word.c w with
  | 0x0 => Word.nnn w == 0x000 || Word.nnn w == 0x0DE || Word.nnn w == 0x0E0 || Word.nnn w == 0x0EE
  | 0x1 | 0x2 | 0x3 | 0x4 | 0x5 | 0x6 | 0x7 => true
  | 0x8 => Word.n w ≤ 7 || Word.n w == 0xE
  | 0x9 | 0xA | 0xB | 0xC | 0xD => true
  | 0xE => Word.nn w == 0x9E || Word.nn w == 0xA1
  | 0xF => Word.nn w == 0x07 || Word.nn w == 0x0A || Word.nn w == 0x15 || Word.nn w == 0x18 ||
           Word.nn w == 0x1E || Word.nn w == 0x29 || Word.nn w == 0x33 || Word.nn w == 0x55 ||
           Word.nn w == 0x65
  | _ => false

/-! ## machine.rs -/

structure Machine where
  heap : Heap
  stack : Stack
  registers : Registers
  timers : Timers
  display : Display
  quirks : Quirks

def Machine.new (program_bytes : List Nat) (quirks : Quirks) : Machine :=
  { heap := Heap.new program_bytes,
    stack := Stack.new,
    registers := Registers.new,
    timers := Timers.new,
    display := Display.new,
    quirks := quirks }

/-- The instruction dispatch inside `Machine::tick`: returns the machine with
the direct effect applied, together with the handler-chosen `pc` and the
`pause` flag; `rand` is the oracle byte for the store-random instruction. -/
def Machine.execInstr (m : Machine) (keys_pressed : List Nat) (rand : Nat) (pc : Nat) :
    Instruction → Option (Machine × Nat × Bool)
  | .Unimplemented _ => some (m, pc, false)
  | .EndProgram => some (m, pc, true)
  | .ClearScreen => some ({ m with display := m.display.clear }, pc, false)
  | .ReturnSubroutine =>
    (m.stack.pop).map (fun r => ({ m with stack := r.1 }, r.2 + 2, false))
  | .Goto address =>
    if pc = address then some (m, pc, true) else some (m, address, false)
  | .CallSubroutine address =>
    (m.stack.push pc).map (fun s => ({ m with stack := s }, address, false))
  | .SkipIfValueEq register value =>
    some (m, if m.registers.get_value register = value then pc + 4 else pc, false)
  | .SkipIfValueNe register value =>
    some (m, if m.registers.get_value register ≠ value then pc + 4 else pc, false)
  | .SkipIfRegistersEq rx ry =>
    some (m, if m.registers.get_value rx = m.registers.get_value ry then pc + 4 else pc, false)
  | .RegisterValueStore register value =>
    some ({ m with registers := m.registers.set_value register value }, pc, false)
  | .RegisterValueAdd register value =>
    some ({ m with registers := m.registers.add_value register value }, pc, false)
  | .RegistersCopy to_ from_ =>
    some ({ m with registers := m.registers.copy_registers to_ from_ }, pc, false)
  | .RegistersOrEq to_ from_ =>
    some ({ m with registers := m.registers.or_registers to_ from_ }, pc, false)
  | .RegistersAndEq to_ from_ =>
    some ({ m with registers := m.registers.and_registers to_ from_ }, pc, false)
  | .RegistersXorEq to_ from_ =>
    some ({ m with registers := m.registers.xor_registers to_ from_ }, pc, false)
  | .RegistersAdd to_ from_ =>
    some ({ m with registers := m.registers.add_registers to_ from_ }, pc, false)
  | .RegistersSub to_ from_ =>
    some ({ m with registers := m.registers.sub_registers to_ from_ }, pc, false)
  | .RegistersShiftRightEq to_ from_ =>
    some ({ m with registers := m.registers.shr_registers to_ from_ m.quirks.is_lazy_shift }, pc, false)
  | .RegistersSubReversed to_ from_ =>
    some ({ m with registers := m.registers.sub_registers_reversed to_ from_ }, pc, false)
  | .RegistersShiftLeftEq to_ from_ =>
    some ({ m with registers := m.registers.shl_registers to_ from_ m.quirks.is_lazy_shift }, pc, false)
  | .SkipIfRegistersNe rx ry =>
    some (m, if m.registers.get_value rx ≠ m.registers.get_value ry then pc + 4 else pc, false)
  | .IStoreAddress address =>
    some ({ m with registers := { m.registers with index := address } }, pc, false)
  | .GotoOffsetted address =>
    let offset := m.registers.get_value Register.first
    let adjusted_address := address + offset
    if pc = adjusted_address then some (m, pc, true)
    else some (m, adjusted_address, false)
  | .RegisterStoreRandom register mask =>
    some ({ m with registers := m.registers.set_value register (rand % 256 &&& mask) }, pc, false)
  | .DrawSprite rx ry sprite_height => do
    let sprite ← m.heap.get_sprite m.registers.index sprite_height
    let x := m.registers.get_value rx
    let y := m.registers.get_value ry
    let r ← m.display.render_sprite x y sprite
    pure ({ m with display := r.1, registers := m.registers.set_flag r.2 }, pc, false)
  | .SkipIfKeyOn register =>
    some (m, if m.registers.get_value register ∈ keys_pressed then pc + 4 else pc, false)
  | .SkipIfKeyOff register =>
    some (m, if m.registers.get_value register ∉ keys_pressed then pc + 4 else pc, false)
  | .DelayTimerToRegister register =>
    some ({ m with registers := m.registers.set_value register m.timers.delay }, pc, false)
  | .WaitForAnyKey register =>
    match keys_pressed with
    | [] => some (m, pc, true)
    | k :: _ => some ({ m with registers := m.registers.set_value register k }, pc, false)
  | .RegisterToDelayTimer register =>
    some ({ m with timers := { m.timers with delay := m.registers.get_value register } }, pc, false)
  | .RegisterToSoundTimer register =>
    some ({ m with timers := { m.timers with sound := m.registers.get_value register } }, pc, false)
  | .IAddOffset register =>
    some ({ m with registers :=
      { m.registers with index := m.registers.index + m.registers.get_value register } }, pc, false)
  | .IStoreDigitAddress register =>
    some ({ m with registers :=
      { m.registers with index := OFFSET_FONT + m.registers.get_value register * 5 } }, pc, false)
  | .HexToDecimal register => do
    let h ← m.heap.set_as_decimal m.registers.index (m.registers.get_value register)
    pure ({ m with heap := h }, pc, false)
  | .RegistersDump max_register => do
    let h ← m.heap.set_bytes m.registers.index (m.registers.dump max_register)
    let m1 := { m with heap := h }
    if m.quirks.is_static_dump_index then pure (m1, pc, false)
    else pure ({ m1 with registers :=
      { m1.registers with index := m1.registers.index + max_register.idx + 1 } }, pc, false)
  | .RegistersLoad max_register => do
    let bytes ← m.heap.get_bytes m.registers.index max_register.idx
    let regs ← m.registers.load bytes
    let m1 := { m with registers := regs }
    if m.quirks.is_static_dump_index then pure (m1, pc, false)
    else pure ({ m1 with registers :=
      { m1.registers with index := m1.registers.index + max_register.idx + 1 } }, pc, false)

/-- Rust `Machine::tick`: fetch-decode at the current program counter,
dispatch, advance the timers once, then apply the default `+2` advance unless
the handler paused or already moved the counter. -/
def Machine.tick (m : Machine) (keys_pressed : List Nat) (rand : Nat) : Option Machine := do
  let pc0 := m.registers.program_counter
  let instruction ← Instruction.new m.heap.elements MEMORY_SIZE pc0
  let r ← m.execInstr keys_pressed rand pc0 instruction
  let m1 := r.1
  let pc := r.2.1
  let pause := r.2.2
  let m2 := { m1 with timers := m1.timers.tick }
  let pc2 := if pause = false ∧ pc = m1.registers.program_counter then pc + 2 else pc
  pure { m2 with registers := { m2.registers with program_counter := pc2 } }

/-- Iterated machine steps with a fixed pressed-key set and random oracle. -/
def Machine.stepN (m : Machine) (keys_pressed : List Nat) (rand : Nat) : Nat → Option Machine
  | 0 => some m
  | n + 1 => (m.stepN keys_pressed rand n).bind (fun m1 => m1.tick keys_pressed rand)

/-- The program counter of an optional machine state. -/
def pcOf (o : Option Machine) : Option Nat := o.map (fun m => m.registers.program_counter)

/-! ## Concrete instances used by counterexamples and witnesses -/

/-- The two-word program of the end-to-end spec example: `0x00E0` (clear
screen) then `0x1200` (jump to `0x200`). -/
def machineC1 : Machine := Machine.new [0x00, 0xE0, 0x12, 0x00] Quirks.inactive

/-- The state the C1 machine keeps cycling through: program counter `pc`,
timers `t`, everything else as freshly constructed (display cleared). -/
def mStateC1 (pc : Nat) (t : Timers) : Machine :=
  { heap := Heap.new [0x00, 0xE0, 0x12, 0x00],
    stack := Stack.new,
    registers := { Registers.new with program_counter := pc },
    timers := t,
    display := ⟨fun _ => false⟩,
    quirks := Quirks.inactive }

/-- A machine whose program is the single word `0xF50A`: wait for a key into
register 5. -/
def machineC3 : Machine := Machine.new [0xF5, 0x0A] Quirks.inactive

/-- A machine calling the subroutine at the address immediately after the
call: `0x2202` at `0x200`, `0x00EE` (return) at `0x202`. -/
def machineC10 : Machine := Machine.new [0x22, 0x02, 0x00, 0xEE] Quirks.inactive

/-- A machine calling a separate subroutine: `0x2204` at `0x200`, `0x00EE`
(return) at `0x204`. -/
def machineC10b : Machine := Machine.new [0x22, 0x04, 0x00, 0x00, 0x00, 0xEE] Quirks.inactive

/-- A register file whose flag register holds 1 and all others 0. -/
def regsC4 : Registers :=
  { Registers.new with general := Function.update (fun _ => 0) Register.flag 1 }

/-- A register file whose flag register holds `0b11` and all others 0. -/
def regsC5 : Registers :=
  { Registers.new with general := Function.update (fun _ => 0) Register.flag 3 }

/-- A register file whose register 1 holds `0b11` and all others 0. -/
def regsC5w : Registers :=
  { Registers.new with general := Function.update (fun _ => 0) (1 : Register) 3 }

/-! ## Helper lemmas on the register file -/

theorem Registers.get_set_value_self (r : Registers) (reg : Register) (v : Nat) :
    (r.set_value reg v).get_value reg = v := by
  simp [Registers.set_value, Registers.get_value]

theorem Registers.get_set_value_of_ne (r : Registers) (reg reg' : Register) (v : Nat)
    (h : reg' ≠ reg) : (r.set_value reg v).get_value reg' = r.get_value reg' := by
  simp [Registers.set_value, Registers.get_value, Function.update_noteq h]

/-! ## C4: register-register addition and subtraction -/

/-- C4 counterexample: with the destination being register 15 (flag 1, other
registers 0), register-register addition `V15 += V0` leaves the flag register
equal to 1 although the unsigned sum of the operands is 1, not above 255 —
the destination write overwrites the freshly computed carry flag, so the
claimed flag characterization fails for pairs whose destination is the flag
register. -/
theorem c4_flag_at_destination_15_fails :
    ¬ (((regsC4.add_registers Register.flag Register.first).get_value Register.flag = 1)
        ↔ 255 < regsC4.get_value Register.flag + regsC4.get_value Register.first) := by
  decide

/-- C4 (amended): for every register state and pair, addition stores the sum
modulo 256 in the destination and subtraction the wrapped difference, and as
long as the destination is not register 15 itself, the flag register ends 1
exactly when the unsigned sum exceeds 255 (addition), respectively exactly
when minuend is at least subtrahend (subtraction); when the destination is
register 15 the stored result overwrites the flag. -/
theorem c4_register_arithmetic (r : Registers) (to_ from_ : Register) :
    (r.add_registers to_ from_).get_value to_
        = (r.get_value to_ + r.get_value from_) % 256 ∧
    (r.sub_registers to_ from_).get_value to_
        = (r.get_value to_ + 256 - r.get_value from_) % 256 ∧
    (to_ ≠ Register.flag →
      ((r.add_registers to_ from_).get_value Register.flag
          = if 255 < r.get_value to_ + r.get_value from_ then 1 else 0) ∧
      ((r.sub_registers to_ from_).get_value Register.flag
          = if r.get_value from_ ≤ r.get_value to_ then 1 else 0)) := by
  refine ⟨?_, ?_, fun h => ⟨?_, ?_⟩⟩
  · simp [Registers.add_registers, Registers.set_flag, Registers.set_value,
          Registers.get_value, Function.update_apply]
  · simp [Registers.sub_registers, Registers.set_flag, Registers.set_value,
          Registers.get_value, Function.update_apply]
  · simp [Registers.add_registers, Registers.set_flag, Registers.set_value,
          Registers.get_value, Function.update_apply, Ne.symm h]
  · simp [Registers.sub_registers, Registers.set_flag, Registers.set_value,
          Registers.get_value, Function.update_apply, Ne.symm h]

/-- C4 witness: the amended theorem applied at a concrete register state
(registers 2 and 3 both holding 200, destination register 2). -/
theorem c4_register_arithmetic_witness :
    ((2 : Register) ≠ Register.flag) ∧
    (regsC4.add_registers 2 3).get_value 2
        = (regsC4.get_value 2 + regsC4.get_value 3) % 256 ∧
    ((regsC4.add_registers 2 3).get_value Register.flag
        = if 255 < regsC4.get_value 2 + regsC4.get_value 3 then 1 else 0) := by
  refine ⟨by decide, (c4_register_arithmetic regsC4 2 3).1,
          ((c4_register_arithmetic regsC4 2 3).2.2 (by decide)).1⟩

/-! ## C5: shift instructions and the shift quirk -/

/-- C5 counterexample: with the quirk inactive, shifting right from register
15 (holding `0b11`) into register 1 stores `0b01` and sets the flag to 1 as
the claim says, but the source register 15 is not left unchanged: writing the
shifted-out-bit flag clobbers it (it ends 1, not 3). -/
theorem c5_from_register_not_unchanged :
    ((regsC5.shr_registers 1 Register.flag false).get_value 1 = 1 ∧
     (regsC5.shr_registers 1 Register.flag false).get_value Register.flag = 1) ∧
    ¬ (regsC5.shr_registers 1 Register.flag false).get_value Register.flag
        = regsC5.get_value Register.flag := by
  decide

/-- C5 (amended): with the quirk active both shifts are equivalent to
self-shifting the destination register; with the quirk inactive the shifted
value is read from the `from` register, which is left unchanged provided it
is distinct from the destination and from the flag register; in both modes,
provided the destination is not the flag register itself, shift-right sets
the flag to the shifted-out low bit and shift-left to the shifted-out high
bit, and the destination receives the shifted value. -/
theorem c5_shift_quirk (r : Registers) (to_ from_ : Register) :
    (r.shr_registers to_ from_ true = r.shr_registers to_ to_ true ∧
     r.shl_registers to_ from_ true = r.shl_registers to_ to_ true) ∧
    (to_ ≠ from_ → from_ ≠ Register.flag →
      ((r.shr_registers to_ from_ false).get_value from_ = r.get_value from_ ∧
       (r.shl_registers to_ from_ false).get_value from_ = r.get_value from_)) ∧
    (to_ ≠ Register.flag →
      ∀ q : Bool,
        ((r.shr_registers to_ from_ q).get_value to_
            = (if q = false then r.get_value from_ else r.get_value to_) / 2 ∧
         (r.shr_registers to_ from_ q).get_value Register.flag
            = if (if q = false then r.get_value from_ else r.get_value to_) &&& 1 ≠ 0
              then 1 else 0) ∧
        ((r.shl_registers to_ from_ q).get_value to_
            = (if q = false then r.get_value from_ else r.get_value to_) * 2 % 256 ∧
         (r.shl_registers to_ from_ q).get_value Register.flag
            = if (if q = false then r.get_value from_ else r.get_value to_) &&& 128 ≠ 0
              then 1 else 0)) := by
  refine ⟨⟨rfl, rfl⟩, fun h1 h2 => ⟨?_, ?_⟩, fun h q => ⟨⟨?_, ?_⟩, ⟨?_, ?_⟩⟩⟩ <;>
    first
    | (cases q <;>
        simp [Registers.shr_registers, Registers.shl_registers, Registers.set_flag,
              Registers.set_value, Registers.get_value, Function.update_apply,
              Ne.symm h])
    | simp [Registers.shr_registers, Registers.shl_registers, Registers.set_flag,
            Registers.set_value, Registers.get_value, Function.update_apply,
            Ne.symm h1, h2]

/-- C5 witness: the amended theorem applied at the spec example — quirk
inactive, `from` = register 1 holding `0b11`, destination register 0: the
destination receives `0b01`, the flag 1, and register 1 still holds `0b11`. -/
theorem c5_shift_quirk_witness :
    ((0 : Register) ≠ (1 : Register) ∧ (1 : Register) ≠ Register.flag ∧
     (0 : Register) ≠ Register.flag) ∧
    (regsC5w.shr_registers 0 1 false).get_value 1 = regsC5w.get_value 1 ∧
    (regsC5w.shr_registers 0 1 false).get_value 0 = regsC5w.get_value 1 / 2 ∧
    (regsC5w.shr_registers 0 1 false).get_value Register.flag
        = if regsC5w.get_value 1 &&& 1 ≠ 0 then 1 else 0 := by
  obtain ⟨-, h2, h3⟩ := c5_shift_quirk regsC5w 0 1
  refine ⟨⟨by decide, by decide, by decide⟩, (h2 (by decide) (by decide)).1, ?_, ?_⟩
  · simpa using (h3 (by decide) false).1.1
  · simpa using (h3 (by decide) false).1.2

/-! ## C2: timer decay -/

/-- Nine consecutive timer ticks starting with a zero sub-rate counter
decrement each timer once (floored at zero) and return the sub-rate counter
to zero. -/
theorem Timers.tickN_nine (d s : Nat) : Timers.tickN ⟨d, s, 0⟩ 9 = ⟨d - 1, s - 1, 0⟩ := by
  simp only [Timers.tickN, Timers.tick]
  norm_num
  constructor <;> (intros; omega)

theorem Timers.tickN_add (t : Timers) (a b : Nat) :
    t.tickN (a + b) = (t.tickN a).tickN b := by
  induction b with
  | zero => rfl
  | succ b ih => simp only [Timers.tickN, Nat.add_eq, ← Nat.add_assoc, ih]

set_option maxRecDepth 4000 in
/-- C2 counterexample: starting from delay 10 with a fresh sub-rate counter,
72 engine steps leave the delay timer at 2 — not at `10 - 72 / 8 = 1` as a
decay rate of exactly one decrement per 8 steps would give. -/
theorem c2_decay_not_one_per_8_steps :
    (Timers.tickN ⟨10, 0, 0⟩ 72).delay = 2 ∧ (2 : Nat) ≠ 10 - 72 / 8 := by decide

/-- C2 (amended): the timers decay once per 9 engine steps, not 8: from any
state whose sub-rate counter is zero, every block of 9 ticks decrements the
delay and sound timers by exactly 1, floored at zero (`Nat` subtraction), and
a single tick never increases a timer and keeps a zero timer at zero. -/
theorem c2_timer_decay (t : Timers) (d s k : Nat) :
    Timers.tickN ⟨d, s, 0⟩ (9 * k) = ⟨d - k, s - k, 0⟩ ∧
    t.tick.delay ≤ t.delay ∧ t.tick.sound ≤ t.sound ∧
    (t.delay = 0 → t.tick.delay = 0) ∧ (t.sound = 0 → t.tick.sound = 0) := by
  refine ⟨?_, ?_, ?_, ?_, ?_⟩
  · induction k with
    | zero => rfl
    | succ k ih =>
      have : 9 * (k + 1) = 9 * k + 9 := by ring
      rw [this, Timers.tickN_add, ih, Timers.tickN_nine]
      congr 1 <;> omega
  all_goals simp only [Timers.tick] <;> split <;> simp <;> split <;> omega

/-! ## C8: call-stack discipline -/

/-- Pushing a list of addresses onto a stack with enough room succeeds and
advances the pointer by the list length. -/
theorem Stack.pushList_isSome (l : List Nat) :
    ∀ s : Stack, s.pointer + l.length ≤ 16 →
      ∃ s', Stack.pushList s l = some s' ∧ s'.pointer = s.pointer + l.length := by
  induction l with
  | nil => intro s _; exact ⟨s, rfl, by simp [Stack.pushList]⟩
  | cons a rest ih =>
    intro s hs
    have hlt : s.pointer < MAX_ELEMENTS := by
      simp only [List.length_cons] at hs
      simp only [MAX_ELEMENTS]; omega
    obtain ⟨s', h1, h2⟩ := ih { elements := Function.update s.elements ⟨s.pointer, hlt⟩ a,
                                pointer := s.pointer + 1 }
      (by simp only [List.length_cons] at hs ⊢; omega)
    refine ⟨s', ?_, by simp at h2 ⊢; omega⟩
    simp only [Stack.pushList, Stack.push, dif_pos hlt, Option.bind_some]
    exact h1

/-- A push onto a non-full stack followed by a pop returns the pushed address
and the stack with its original pointer; only the dead slot at the old
pointer position differs from the original array. -/
theorem Stack.pop_push (s : Stack) (a : Nat) (hs : s.pointer < 16) :
    (s.push a).bind Stack.pop
      = some ({ elements := Function.update s.elements ⟨s.pointer, hs⟩ a,
                pointer := s.pointer }, a) := by
  simp only [Stack.push, MAX_ELEMENTS, dif_pos hs]
  show Stack.pop _ = _
  simp only [Stack.pop, Nat.add_sub_cancel, dif_pos hs, if_pos (Nat.succ_pos s.pointer)]
  simp

/-- C8: from an empty stack 16 pushes succeed, a 17th push faults, popping an
empty stack faults, and on any non-full stack a push immediately followed by
a pop returns the pushed address and restores the stack (its pointer and
every live slot below it). -/
theorem c8_stack_discipline :
    (∀ l : List Nat, l.length = 16 → ∃ s', Stack.pushList Stack.new l = some s') ∧
    (∀ l : List Nat, ∀ a : Nat, l.length = 16 →
      (Stack.pushList Stack.new l).bind (fun s => s.push a) = none) ∧
    Stack.pop Stack.new = none ∧
    (∀ s : Stack, ∀ a : Nat, s.pointer < 16 →
      ∃ s', (s.push a).bind Stack.pop = some (s', a) ∧
        s'.pointer = s.pointer ∧
        ∀ i : Fin 16, i.val < s.pointer → s'.elements i = s.elements i) := by
  refine ⟨?_, ?_, rfl, ?_⟩
  · intro l hl
    obtain ⟨s', h1, -⟩ := Stack.pushList_isSome l Stack.new (by simp [Stack.new, hl])
    exact ⟨s', h1⟩
  · intro l a hl
    obtain ⟨s', h1, h2⟩ := Stack.pushList_isSome l Stack.new (by simp [Stack.new, hl])
    rw [h1]
    show s'.push a = none
    rw [Stack.push, dif_neg]
    simp only [Stack.new, hl] at h2
    simp only [MAX_ELEMENTS]
    omega
  · intro s a hs
    refine ⟨{ elements := Function.update s.elements ⟨s.pointer, hs⟩ a,
              pointer := s.pointer }, Stack.pop_push s a hs, rfl, ?_⟩
    intro i hi
    exact Function.update_noteq (Fin.ne_of_val_ne (Nat.ne_of_lt hi)) _ _

/-- C8 witness: 16 pushes of the address 7 succeed from the empty stack, and
a push of `0x123` onto the empty stack followed by a pop returns `0x123`. -/
theorem c8_stack_discipline_witness :
    ((List.replicate 16 7).length = 16 ∧
      ∃ s', Stack.pushList Stack.new (List.replicate 16 7) = some s') ∧
    (Stack.new.pointer < 16 ∧
      ∃ s', (Stack.new.push 0x123).bind Stack.pop = some (s', 0x123) ∧
        s'.pointer = Stack.new.pointer ∧
        ∀ i : Fin 16, i.val < Stack.new.pointer → s'.elements i = Stack.new.elements i) :=
  ⟨⟨by decide, c8_stack_discipline.1 _ (by decide)⟩,
   ⟨by decide, c8_stack_discipline.2.2.2 Stack.new 0x123 (by decide)⟩⟩

/-! ## C9: decoding is total and pure -/

/-- The `X` register nibble always validates: it is a 4-bit value. -/
theorem Word.x_some (w : Nat) :
    Word.x w = some ⟨(w >>> 8) &&& 0xF, lt_of_le_of_lt Nat.and_le_right (by norm_num)⟩ := by
  rw [Word.x, Register.new, dif_pos]

/-- The `Y` register nibble always validates: it is a 4-bit value. -/
theorem Word.y_some (w : Nat) :
    Word.y w = some ⟨(w >>> 4) &&& 0xF, lt_of_le_of_lt Nat.and_le_right (by norm_num)⟩ := by
  rw [Word.y, Register.new, dif_pos]

/-- Decoding any word never faults: every register nibble is below 16, so
the register-index assertion passes, and the top nibble is below 16, so the
`Unreachable code` branch is dead. -/
theorem decodeWord_isSome (w : Nat) : (decodeWord w).isSome := by
  have hc : Word.c w < 16 := lt_of_le_of_lt Nat.and_le_right (by norm_num)
  unfold decodeWord
  split
  all_goals try (rw [Word.x_some])
  all_goals try (rw [Word.y_some])
  all_goals try rfl
  all_goals try (split <;> rfl)
  all_goals (exfalso; set c := Word.c w with hcdef; interval_cases c <;> simp_all)

/-- A word matching no known operation decodes to the explicit
`Unimplemented` variant carrying the raw opcode. -/
theorem decodeWord_unimplemented (w : Nat) (h : specKnownOpcode w = false) :
    decodeWord w = some (.Unimplemented w) := by
  have hc : Word.c w < 16 := lt_of_le_of_lt Nat.and_le_right (by norm_num)
  unfold specKnownOpcode at h
  unfold decodeWord
  split
  all_goals try (rw [Word.x_some])
  all_goals try (rw [Word.y_some])
  all_goals simp_all
  all_goals try (split <;> simp_all)
  all_goals omega

/-- C9: whenever the two bytes at `pc` are within memory bounds, decoding
(1) never faults — in particular the register-index assertion and the
`Unreachable code` panic branch are unreachable; (2) is a pure function of
the fetched 16-bit word, so identical words decode to identical instruction
values; and (3) sends every word matching no known operation to the explicit
`Unimplemented` variant carrying the raw opcode. -/
theorem c9_decode_total_pure :
    (∀ memory : Nat → Nat, ∀ memLen pc : Nat, pc + 1 < memLen →
      ∃ i, Instruction.new memory memLen pc = some i) ∧
    (∀ memory memory' : Nat → Nat, ∀ memLen memLen' pc pc' : Nat,
      pc + 1 < memLen → pc' + 1 < memLen' →
      wordAt memory pc = wordAt memory' pc' →
      Instruction.new memory memLen pc = Instruction.new memory' memLen' pc') ∧
    (∀ w : Nat, specKnownOpcode w = false → decodeWord w = some (.Unimplemented w)) := by
  refine ⟨?_, ?_, decodeWord_unimplemented⟩
  · intro memory memLen pc h
    rw [Instruction.new, if_pos h]
    exact Option.isSome_iff_exists.mp (decodeWord_isSome (wordAt memory pc))
  · intro m m' l l' p p' h h' hw
    rw [Instruction.new, if_pos h, Instruction.new, if_pos h', hw]

/-- C9 witness: decoding at offset 0 of a 2-byte memory of `0xAB` bytes
succeeds, and the unknown encoding `0xE000` decodes to `Unimplemented`. -/
theorem c9_decode_total_pure_witness :
    ((0 : Nat) + 1 < 2 ∧ ∃ i, Instruction.new (fun _ => 0xAB) 2 0 = some i) ∧
    (specKnownOpcode 0xE000 = false ∧
      decodeWord 0xE000 = some (.Unimplemented 0xE000)) :=
  ⟨⟨by decide, c9_decode_total_pure.1 (fun _ => 0xAB) 2 0 (by decide)⟩,
   ⟨by decide, c9_decode_total_pure.2.2 0xE000 (by decide)⟩⟩

/-! ## C6 and C7: framebuffer sprite rendering -/

theorem Display.ext_bits : ∀ {a b : Display}, a.bits = b.bits → a = b
  | ⟨_⟩, ⟨_⟩, rfl => rfl

theorem Display.set_pixel_eq (d : Display) (x y : Nat) (v : Bool) :
    d.set_pixel x y v
      = some (⟨fun j => if x < PIXELS_H ∧ y < PIXELS_V ∧ j = PIXELS_H * y + x
                        then xor (d.bits j) v else d.bits j⟩,
              decide (x < PIXELS_H ∧ y < PIXELS_V) && (d.bits (PIXELS_H * y + x) && v)) := by
  unfold Display.set_pixel
  by_cases h : x < PIXELS_H ∧ y < PIXELS_V
  · rw [if_pos h, if_pos (by simp only [PIXELS_H, PIXELS_V, BUFFER_SIZE] at h ⊢; omega)]
    simp only [Option.some.injEq, Prod.mk.injEq]
    refine ⟨Display.ext_bits (funext fun j => ?_), by simp [h]⟩
    by_cases hj : j = PIXELS_H * y + x
    · simp [Function.update_apply, hj, h]
    · simp [Function.update_apply, hj, h]
  · rw [if_neg h]
    simp only [Option.some.injEq, Prod.mk.injEq]
    refine ⟨Display.ext_bits (funext fun j => ?_), by simp [h]⟩
    show d.bits j
        = if x < PIXELS_H ∧ y < PIXELS_V ∧ j = PIXELS_H * y + x then xor (d.bits j) v else d.bits j
    rw [if_neg (by tauto)]

theorem Display.renderBits_eq (row x0 y : Nat) :
    ∀ xs : List Nat, xs.Nodup → ∀ (d : Display) (coll : Bool),
      ∃ d' coll',
        Display.renderBits d coll row x0 y xs = some (d', coll') ∧
        (∀ j, d'.bits j = xor (d.bits j) (decide (rowHit x0 y row xs j))) ∧
        coll' = (coll || decide (rowColl d x0 y row xs)) := by
  intro xs
  induction xs with
  | nil =>
    intro _ d coll
    refine ⟨d, coll, rfl, fun j => ?_, ?_⟩
    · simp [rowHit]
    · simp [rowColl]
  | cons x xs ih =>
    intro hnd d coll
    have hx : x ∉ xs := (List.nodup_cons.mp hnd).1
    have hnd' : xs.Nodup := (List.nodup_cons.mp hnd).2
    set lit := Nat.testBit row (7 - x) with hlit
    set d1 : Display :=
      ⟨fun j => if x0 + x < PIXELS_H ∧ y < PIXELS_V ∧ j = PIXELS_H * y + (x0 + x)
                then xor (d.bits j) lit else d.bits j⟩ with hd1def
    set c1 : Bool := decide (x0 + x < PIXELS_H ∧ y < PIXELS_V)
        && (d.bits (PIXELS_H * y + (x0 + x)) && lit) with hc1def
    have hd1bits : ∀ c, c ≠ x → d1.bits (PIXELS_H * y + (x0 + c)) = d.bits (PIXELS_H * y + (x0 + c)) := by
      intro c hc
      show (if _ then _ else _) = _
      rw [if_neg]
      rintro ⟨-, -, heq⟩
      exact hc (by omega)
    obtain ⟨d', coll', h1, h2, h3⟩ := ih hnd' d1 (coll || c1)
    refine ⟨d', coll', ?_, ?_, ?_⟩
    · rw [Display.renderBits, Display.set_pixel_eq]
      exact h1
    · intro j
      rw [h2 j]
      have hconsj : rowHit x0 y row (x :: xs) j
          ↔ ((x0 + x < PIXELS_H ∧ y < PIXELS_V ∧ Nat.testBit row (7 - x)
                ∧ j = PIXELS_H * y + (x0 + x)) ∨ rowHit x0 y row xs j) := by
        simp [rowHit, List.mem_cons, or_and_right, exists_or]
      by_cases hcond : x0 + x < PIXELS_H ∧ y < PIXELS_V ∧ j = PIXELS_H * y + (x0 + x)
      · have hbits1 : d1.bits j = xor (d.bits j) lit := by
          show (if _ then _ else _) = _
          rw [if_pos hcond]
        rw [hbits1]
        by_cases hl : Nat.testBit row (7 - x)
        · have hxs : ¬ rowHit x0 y row xs j := by
            rintro ⟨c, hc, -, -, -, heq⟩
            exact hx (by
              have : c = x := by omega
              exact this ▸ hc)
          have hcons : rowHit x0 y row (x :: xs) j := by
            rw [hconsj]; exact Or.inl ⟨hcond.1, hcond.2.1, hl, hcond.2.2⟩
          simp [hxs, hcons, hlit, hl]
        · have : lit = false := by simp [hlit, hl]
          rw [this]
          have : rowHit x0 y row (x :: xs) j ↔ rowHit x0 y row xs j := by
            rw [hconsj]
            constructor
            · rintro (⟨-, -, hbit, -⟩ | h)
              · exact absurd hbit hl
              · exact h
            · exact Or.inr
          simp [this]
      · have hbits1 : d1.bits j = d.bits j := by
          show (if _ then _ else _) = _
          rw [if_neg hcond]
        rw [hbits1]
        have : rowHit x0 y row (x :: xs) j ↔ rowHit x0 y row xs j := by
          rw [hconsj]
          constructor
          · rintro (⟨ha, hb, -, hd⟩ | h)
            · exact absurd ⟨ha, hb, hd⟩ hcond
            · exact h
          · exact Or.inr
        simp [this]
    · rw [h3]
      have hrest : rowColl d1 x0 y row xs ↔ rowColl d x0 y row xs := by
        unfold rowColl
        constructor
        · rintro ⟨c, hc, ha, hb, hbit, hval⟩
          exact ⟨c, hc, ha, hb, hbit, by rw [← hd1bits c (fun hcx => hx (hcx ▸ hc))]; exact hval⟩
        · rintro ⟨c, hc, ha, hb, hbit, hval⟩
          exact ⟨c, hc, ha, hb, hbit, by rw [hd1bits c (fun hcx => hx (hcx ▸ hc))]; exact hval⟩
      have hconsc : rowColl d x0 y row (x :: xs)
          ↔ ((x0 + x < PIXELS_H ∧ y < PIXELS_V ∧ Nat.testBit row (7 - x)
                ∧ d.bits (PIXELS_H * y + (x0 + x)) = true) ∨ rowColl d x0 y row xs) := by
        simp [rowColl, List.mem_cons, or_and_right, exists_or]
      have hc1 : c1 = decide (x0 + x < PIXELS_H ∧ y < PIXELS_V ∧ Nat.testBit row (7 - x)
          ∧ d.bits (PIXELS_H * y + (x0 + x)) = true) := by
        rw [hc1def, hlit]
        by_cases h1 : x0 + x < PIXELS_H <;>
          by_cases h2 : y < PIXELS_V <;>
          by_cases h3 : Nat.testBit row (7 - x) <;>
          by_cases h4 : d.bits (PIXELS_H * y + (x0 + x)) = true <;>
          simp_all
      simp only [hrest, hc1, hconsc]
      by_cases ha : (x0 + x < PIXELS_H ∧ y < PIXELS_V ∧ Nat.testBit row (7 - x)
          ∧ d.bits (PIXELS_H * y + (x0 + x)) = true) <;>
        by_cases hb : rowColl d x0 y row xs <;>
        simp_all [Bool.or_assoc]

theorem spriteHit_bounds (x0 : Nat) : ∀ (rows : List Nat) (yb j : Nat),
    spriteHit x0 yb rows j →
    ∃ yy a, yb ≤ yy ∧ yy < PIXELS_V ∧ a < PIXELS_H ∧ j = PIXELS_H * yy + a := by
  intro rows
  induction rows with
  | nil => intro yb j h; exact absurd h (fun h => h)
  | cons row rest ih =>
    intro yb j h
    cases h with
    | inl hr =>
      obtain ⟨c, -, ha, hb, -, heq⟩ := hr
      exact ⟨yb, x0 + c, Nat.le_refl yb, hb, ha, heq⟩
    | inr hs =>
      obtain ⟨yy, a, h1, h2, h3, h4⟩ := ih (yb + 1) j hs
      exact ⟨yy, a, by omega, h2, h3, h4⟩

theorem spriteColl_congr (x0 : Nat) : ∀ (rows : List Nat) (yb : Nat) (d d1 : Display),
    (∀ yy a, yb ≤ yy → yy < PIXELS_V → a < PIXELS_H →
      d1.bits (PIXELS_H * yy + a) = d.bits (PIXELS_H * yy + a)) →
    (spriteColl d1 x0 yb rows ↔ spriteColl d x0 yb rows) := by
  intro rows
  induction rows with
  | nil => intro yb d d1 _; exact Iff.rfl
  | cons row rest ih =>
    intro yb d d1 hinv
    have hrow : rowColl d1 x0 yb row (List.range 8) ↔ rowColl d x0 yb row (List.range 8) := by
      unfold rowColl
      constructor
      · rintro ⟨c, hc, ha, hb, hbit, hval⟩
        exact ⟨c, hc, ha, hb, hbit, by rw [← hinv yb (x0 + c) (Nat.le_refl yb) hb ha]; exact hval⟩
      · rintro ⟨c, hc, ha, hb, hbit, hval⟩
        exact ⟨c, hc, ha, hb, hbit, by rw [hinv yb (x0 + c) (Nat.le_refl yb) hb ha]; exact hval⟩
    have hrest : spriteColl d1 x0 (yb + 1) rest ↔ spriteColl d x0 (yb + 1) rest :=
      ih (yb + 1) d d1 (fun yy a hy => hinv yy a (by omega))
    show (_ ∨ _) ↔ (_ ∨ _)
    rw [hrow, hrest]

theorem Display.renderRows_eq (x0 y0 : Nat) :
    ∀ (rows : List Nat) (y : Nat) (d : Display) (coll : Bool),
      ∃ d' coll',
        Display.renderRows d coll x0 y0 rows y = some (d', coll') ∧
        (∀ j, d'.bits j = xor (d.bits j) (decide (spriteHit x0 (y0 + y) rows j))) ∧
        coll' = (coll || decide (spriteColl d x0 (y0 + y) rows)) := by
  intro rows
  induction rows with
  | nil =>
    intro y d coll
    refine ⟨d, coll, rfl, fun j => ?_, ?_⟩
    · simp [spriteHit]
    · simp [spriteColl]
  | cons row rest ih =>
    intro y d coll
    obtain ⟨d1, c1, hb1, hb2, hb3⟩ :=
      Display.renderBits_eq row x0 (y0 + y) (List.range 8) (List.nodup_range 8) d coll
    obtain ⟨d', coll', h1, h2, h3⟩ := ih (y + 1) d1 c1
    have hd1inv : ∀ yy a, y0 + y + 1 ≤ yy → yy < PIXELS_V → a < PIXELS_H →
        d1.bits (PIXELS_H * yy + a) = d.bits (PIXELS_H * yy + a) := by
      intro yy a hy hv hh
      rw [hb2]
      have : ¬ rowHit x0 (y0 + y) row (List.range 8) (PIXELS_H * yy + a) := by
        rintro ⟨c, -, hca, -, -, heq⟩
        simp only [PIXELS_H, PIXELS_V] at heq hca hv hh
        omega
      simp [this]
    refine ⟨d', coll', ?_, ?_, ?_⟩
    · rw [Display.renderRows, hb1]
      exact h1
    · intro j
      rw [h2 j, hb2 j]
      have hsplit : spriteHit x0 (y0 + y) (row :: rest) j
          ↔ (rowHit x0 (y0 + y) row (List.range 8) j ∨ spriteHit x0 (y0 + y + 1) rest j) :=
        Iff.rfl
      by_cases hh : rowHit x0 (y0 + y) row (List.range 8) j
      · have hrest : ¬ spriteHit x0 (y0 + y + 1) rest j := by
          intro hs
          obtain ⟨c, -, hca, hcb, -, heq⟩ := hh
          obtain ⟨yy, a, hy1, hy2, hy3, hy4⟩ := spriteHit_bounds x0 rest (y0 + y + 1) j hs
          simp only [PIXELS_H, PIXELS_V] at heq hca hcb hy2 hy3 hy4
          omega
        have h5 : spriteHit x0 (y0 + y) (row :: rest) j := hsplit.mpr (Or.inl hh)
        have h6 : spriteHit x0 (y0 + (y + 1)) rest j ↔ spriteHit x0 (y0 + y + 1) rest j := Iff.rfl
        simp [h6, hrest, hh, h5]
      · have h6 : spriteHit x0 (y0 + (y + 1)) rest j ↔ spriteHit x0 (y0 + y + 1) rest j := Iff.rfl
        have h7 : spriteHit x0 (y0 + y) (row :: rest) j ↔ spriteHit x0 (y0 + y + 1) rest j := by
          rw [hsplit]
          exact ⟨fun h => h.resolve_left hh, Or.inr⟩
        simp [h6, h7, hh]
    · rw [h3, hb3]
      have hcollinv : spriteColl d1 x0 (y0 + (y + 1)) rest ↔ spriteColl d x0 (y0 + y + 1) rest :=
        spriteColl_congr x0 rest (y0 + y + 1) d d1 hd1inv
      have hsplitc : spriteColl d x0 (y0 + y) (row :: rest)
          ↔ (rowColl d x0 (y0 + y) row (List.range 8) ∨ spriteColl d x0 (y0 + y + 1) rest) :=
        Iff.rfl
      simp only [hcollinv, hsplitc]
      by_cases ha : rowColl d x0 (y0 + y) row (List.range 8) <;>
        by_cases hb : spriteColl d x0 (y0 + y + 1) rest <;>
        simp [ha, hb]

/-- The full characterization of `render_sprite`: it never faults, each pixel
is XOR-toggled exactly when some in-bounds set sprite bit addresses it, and
the returned collision is exactly the existence of an in-bounds set sprite
bit over a previously set pixel. -/
theorem Display.render_sprite_eq (d : Display) (x0 y0 : Nat) (sprite : List Nat) :
    ∃ d' coll, d.render_sprite x0 y0 sprite = some (d', coll) ∧
      (∀ j, d'.bits j = xor (d.bits j) (decide (spriteHit x0 y0 sprite j))) ∧
      coll = decide (spriteColl d x0 y0 sprite) := by
  obtain ⟨d', coll', h1, h2, h3⟩ := Display.renderRows_eq x0 y0 sprite 0 d false
  exact ⟨d', coll', h1, h2, by simpa using h3⟩

theorem spriteColl_iff (d : Display) (x0 : Nat) : ∀ (rows : List Nat) (yb : Nat),
    spriteColl d x0 yb rows ↔ ∃ j, spriteHit x0 yb rows j ∧ d.bits j = true := by
  intro rows
  induction rows with
  | nil => intro yb; exact ⟨fun h => absurd h (fun h => h), fun ⟨_, h, _⟩ => absurd h (fun h => h)⟩
  | cons row rest ih =>
    intro yb
    show (_ ∨ _) ↔ _
    rw [ih (yb + 1)]
    constructor
    · rintro (hr | ⟨j, hj, hv⟩)
      · obtain ⟨c, hc, ha, hb, hbit, hval⟩ := hr
        exact ⟨_, Or.inl ⟨c, hc, ha, hb, hbit, rfl⟩, hval⟩
      · exact ⟨j, Or.inr hj, hv⟩
    · rintro ⟨j, hj | hj, hv⟩
      · obtain ⟨c, hc, ha, hb, hbit, heq⟩ := hj
        exact Or.inl ⟨c, hc, ha, hb, hbit, heq ▸ hv⟩
      · exact Or.inr ⟨j, hj, hv⟩

/-- C7: rendering any sprite at any coordinate never faults; every pixel
address touched by an in-bounds set sprite bit is inside the buffer; pixels
not addressed by an in-bounds sprite bit are unchanged (so out-of-grid sprite
parts are skipped with no wraparound); and the returned collision holds
exactly when some in-bounds set sprite bit lands on a previously set pixel,
so out-of-bounds bits contribute nothing to it. -/
theorem c7_sprite_clipping (d : Display) (x0 y0 : Nat) (sprite : List Nat) :
    ∃ d' coll, d.render_sprite x0 y0 sprite = some (d', coll) ∧
      (∀ j, spriteHit x0 y0 sprite j → j < BUFFER_SIZE) ∧
      (∀ j, ¬ spriteHit x0 y0 sprite j → d'.bits j = d.bits j) ∧
      (coll = true ↔ spriteColl d x0 y0 sprite) := by
  obtain ⟨d', coll, h1, h2, h3⟩ := Display.render_sprite_eq d x0 y0 sprite
  refine ⟨d', coll, h1, ?_, ?_, ?_⟩
  · intro j hj
    obtain ⟨yy, a, -, hb, hc, hd⟩ := spriteHit_bounds x0 sprite y0 j hj
    simp only [PIXELS_H, PIXELS_V, BUFFER_SIZE] at hb hc hd ⊢
    omega
  · intro j hj
    rw [h2 j]
    simp [hj]
  · rw [h3]
    simp

/-- C6 counterexample: drawing the all-zero one-row sprite twice at the
in-bounds coordinate (0,0) on a fresh framebuffer returns collision `false`
from the second draw as well, not `true` as the claim requires of every
sprite. -/
theorem c6_zero_sprite_no_second_collision :
    Option.map Prod.snd ((Display.new.render_sprite 0 0 [0]).bind
        (fun r => r.1.render_sprite 0 0 [0])) = some false ∧ false ≠ true := by
  decide

/-- C6 (amended): for an in-bounds coordinate, a framebuffer whose pixels
under the sprite are unset, and a sprite at least one of whose set bits lands
inside the grid, drawing the sprite twice yields collision `false` then
`true`, and the second draw restores every pixel (in particular the pixels
under the sprite are unset again). -/
theorem c6_double_draw (d : Display) (x0 y0 : Nat) (sprite : List Nat)
    (hx : x0 < PIXELS_H) (hy : y0 < PIXELS_V)
    (hclean : ∀ j, spriteHit x0 y0 sprite j → d.bits j = false)
    (hsome : ∃ j, spriteHit x0 y0 sprite j) :
    ∃ d1 c1 d2 c2,
      d.render_sprite x0 y0 sprite = some (d1, c1) ∧
      d1.render_sprite x0 y0 sprite = some (d2, c2) ∧
      c1 = false ∧ c2 = true ∧
      (∀ j, d2.bits j = d.bits j) ∧
      (∀ j, spriteHit x0 y0 sprite j → d2.bits j = false) := by
  obtain ⟨d1, c1, h1, h2, h3⟩ := Display.render_sprite_eq d x0 y0 sprite
  obtain ⟨d2, c2, g1, g2, g3⟩ := Display.render_sprite_eq d1 x0 y0 sprite
  have hback : ∀ j, d2.bits j = d.bits j := by
    intro j
    rw [g2 j, h2 j]
    cases hd : d.bits j <;> cases hh : decide (spriteHit x0 y0 sprite j) <;> simp
  refine ⟨d1, c1, d2, c2, h1, g1, ?_, ?_, hback, ?_⟩
  · rw [h3, decide_eq_false_iff_not, spriteColl_iff]
    rintro ⟨j, hj, hv⟩
    rw [hclean j hj] at hv
    exact Bool.false_ne_true hv
  · rw [g3, decide_eq_true_eq, spriteColl_iff]
    obtain ⟨j0, hj0⟩ := hsome
    refine ⟨j0, hj0, ?_⟩
    rw [h2 j0, hclean j0 hj0]
    simp [hj0]
  · intro j hj
    rw [hback j]
    exact hclean j hj

/-- C6 witness: the amended theorem at the spec example — a fresh framebuffer
and the single-row sprite `0xFF` drawn twice at (0,0). -/
theorem c6_double_draw_witness :
    ((0 : Nat) < PIXELS_H ∧ (0 : Nat) < PIXELS_V ∧
      (∀ j, spriteHit 0 0 [0xFF] j → Display.new.bits j = false) ∧
      (∃ j, spriteHit 0 0 [0xFF] j)) ∧
    (∃ d1 c1 d2 c2,
      Display.new.render_sprite 0 0 [0xFF] = some (d1, c1) ∧
      d1.render_sprite 0 0 [0xFF] = some (d2, c2) ∧
      c1 = false ∧ c2 = true ∧
      (∀ j, d2.bits j = Display.new.bits j) ∧
      (∀ j, spriteHit 0 0 [0xFF] j → d2.bits j = false)) :=
  ⟨⟨by decide, by decide, fun j _ => rfl, ⟨0, by decide⟩⟩,
   c6_double_draw Display.new 0 0 [0xFF] (by decide) (by decide) (fun j _ => rfl) ⟨0, by decide⟩⟩

/-! ## Machine-level step lemmas and claims C1, C3, C10 -/

/-- One engine step, unfolded: when decoding at the current program counter
yields `i`, the step is the instruction dispatch followed by one timer tick
and the default `+2` advance (applied unless paused or the handler moved the
counter). -/
theorem Machine.tick_eq (m : Machine) (keys_pressed : List Nat) (rand : Nat) (i : Instruction)
    (hdec : Instruction.new m.heap.elements MEMORY_SIZE m.registers.program_counter = some i) :
    m.tick keys_pressed rand
      = (m.execInstr keys_pressed rand m.registers.program_counter i).map
          (fun r =>
            { r.1 with
              timers := r.1.timers.tick,
              registers := { r.1.registers with program_counter :=
                if r.2.2 = false ∧ r.2.1 = r.1.registers.program_counter
                then r.2.1 + 2 else r.2.1 } }) := by
  rw [Machine.tick, hdec]
  cases h : m.execInstr keys_pressed rand m.registers.program_counter i <;>
    simp [h, Option.bind]

/-- C3: a step at a wait-for-key instruction leaves the program counter (and
the register file) unchanged when no key is pressed, and otherwise stores
the first (lowest-indexed) key code of the supplied collection into the
target register and advances the counter by 2. -/
theorem c3_wait_for_key (m : Machine) (r : Register) (a rand : Nat)
    (hpc : m.registers.program_counter = a)
    (hdec : Instruction.new m.heap.elements MEMORY_SIZE a = some (.WaitForAnyKey r)) :
    (∃ m1, m.tick [] rand = some m1 ∧
      m1.registers.program_counter = a ∧
      m1.registers.general = m.registers.general) ∧
    (∀ k rest, ∃ m1, m.tick (k :: rest) rand = some m1 ∧
      m1.registers.program_counter = a + 2 ∧
      m1.registers.general = Function.update m.registers.general r k) := by
  have hdec' : Instruction.new m.heap.elements MEMORY_SIZE m.registers.program_counter
      = some (.WaitForAnyKey r) := by rw [hpc]; exact hdec
  constructor
  · rw [Machine.tick_eq m [] rand _ hdec']
    simp [Machine.execInstr, hpc]
  · intro k rest
    rw [Machine.tick_eq m (k :: rest) rand _ hdec']
    simp [Machine.execInstr, hpc, Registers.set_value]

/-- C3 witness: the wait-for-key theorem at the concrete machine running
`0xF50A`, with no keys and with keys `[7, 3]` (register 5 receives 7). -/
theorem c3_wait_for_key_witness :
    (machineC3.registers.program_counter = 0x200 ∧
     Instruction.new machineC3.heap.elements MEMORY_SIZE 0x200
        = some (.WaitForAnyKey 5)) ∧
    (∃ m1, machineC3.tick [] 0 = some m1 ∧
      m1.registers.program_counter = 0x200 ∧
      m1.registers.general = machineC3.registers.general) ∧
    (∃ m1, machineC3.tick [7, 3] 0 = some m1 ∧
      m1.registers.program_counter = 0x200 + 2 ∧
      m1.registers.general = Function.update machineC3.registers.general 5 7) :=
  ⟨⟨rfl, by decide⟩,
   (c3_wait_for_key machineC3 5 0x200 0 rfl (by decide)).1,
   (c3_wait_for_key machineC3 5 0x200 0 rfl (by decide)).2 7 [3]⟩

/-- C10 counterexample: calling the subroutine that starts at the very next
word (`0x2202` at `0x200`, return at `0x202`) parks the program counter at
`0x204` after call plus return — not at `0x202 = a + 2` — because the
return-set counter equals the current one, so the default advance fires a
second time. -/
theorem c10_call_return_skips :
    pcOf (machineC10.stepN [] 0 2) = some 0x204 ∧ (0x204 : Nat) ≠ 0x200 + 2 := by
  decide

/-- C10 (amended): for a call at address `a` to a subroutine at `b` that is
neither `a` nor `a + 2`, with room on the stack, the call pushes the call
site `a` itself (not `a + 2`) and jumps to `b`; a return then pops `a`, sets
the counter to `a + 2`, and restores the stack pointer. -/
theorem c10_call_return (m : Machine) (a b rand rand2 : Nat) (keys keys2 : List Nat)
    (hpc : m.registers.program_counter = a)
    (hstack : m.stack.pointer < 16)
    (hca : Instruction.new m.heap.elements MEMORY_SIZE a = some (.CallSubroutine b))
    (hcb : Instruction.new m.heap.elements MEMORY_SIZE b = some .ReturnSubroutine)
    (hba : b ≠ a) (hba2 : b ≠ a + 2) :
    ∃ m1 m2,
      m.tick keys rand = some m1 ∧
      m1.registers.program_counter = b ∧
      m1.stack.pointer = m.stack.pointer + 1 ∧
      m1.stack.elements ⟨m.stack.pointer, hstack⟩ = a ∧
      m1.tick keys2 rand2 = some m2 ∧
      m2.registers.program_counter = a + 2 ∧
      m2.stack.pointer = m.stack.pointer := by
  have hdec1 : Instruction.new m.heap.elements MEMORY_SIZE m.registers.program_counter
      = some (.CallSubroutine b) := by rw [hpc]; exact hca
  have hstep1 : m.tick keys rand
      = some { m with
          stack := { elements := Function.update m.stack.elements ⟨m.stack.pointer, hstack⟩ a,
                     pointer := m.stack.pointer + 1 },
          timers := m.timers.tick,
          registers := { m.registers with program_counter := b } } := by
    rw [Machine.tick_eq m keys rand _ hdec1]
    simp only [Machine.execInstr, Stack.push, MAX_ELEMENTS, dif_pos hstack, Option.map_some']
    simp [hpc, hba]
  have hpop : ({ elements := Function.update m.stack.elements ⟨m.stack.pointer, hstack⟩ a,
                 pointer := m.stack.pointer + 1 } : Stack).pop
      = some ({ elements := Function.update m.stack.elements ⟨m.stack.pointer, hstack⟩ a,
                pointer := m.stack.pointer }, a) := by
    simp only [Stack.pop, Nat.add_sub_cancel]
    rw [if_pos (Nat.succ_pos m.stack.pointer), dif_pos hstack]
    simp
  have hstep2 : ({ m with
          stack := { elements := Function.update m.stack.elements ⟨m.stack.pointer, hstack⟩ a,
                     pointer := m.stack.pointer + 1 },
          timers := m.timers.tick,
          registers := { m.registers with program_counter := b } } : Machine).tick keys2 rand2
      = some { m with
          stack := { elements := Function.update m.stack.elements ⟨m.stack.pointer, hstack⟩ a,
                     pointer := m.stack.pointer },
          timers := m.timers.tick.tick,
          registers := { m.registers with program_counter := a + 2 } } := by
    rw [Machine.tick_eq _ keys2 rand2 _ hcb]
    simp only [Machine.execInstr, hpop, Option.map_some']
    simp [Ne.symm hba2]
  exact ⟨_, _, hstep1, rfl, rfl, Function.update_same _ _ _, hstep2, rfl, rfl⟩

/-- C10 witness: the amended call/return theorem at the concrete machine
calling from `0x200` to a return instruction at `0x204`. -/
theorem c10_call_return_witness :
    (machineC10b.registers.program_counter = 0x200 ∧
     machineC10b.stack.pointer < 16 ∧
     Instruction.new machineC10b.heap.elements MEMORY_SIZE 0x200
        = some (.CallSubroutine 0x204) ∧
     Instruction.new machineC10b.heap.elements MEMORY_SIZE 0x204
        = some .ReturnSubroutine ∧
     (0x204 : Nat) ≠ 0x200 ∧ (0x204 : Nat) ≠ 0x200 + 2) ∧
    (∃ m1 m2,
      machineC10b.tick [] 0 = some m1 ∧
      m1.registers.program_counter = 0x204 ∧
      m1.stack.pointer = machineC10b.stack.pointer + 1 ∧
      m1.stack.elements ⟨machineC10b.stack.pointer, by decide⟩ = 0x200 ∧
      m1.tick [] 0 = some m2 ∧
      m2.registers.program_counter = 0x200 + 2 ∧
      m2.stack.pointer = machineC10b.stack.pointer) :=
  ⟨⟨rfl, by decide, by decide, by decide, by decide, by decide⟩,
   c10_call_return machineC10b 0x200 0x204 0 0 [] [] rfl (by decide) (by decide) (by decide)
     (by decide) (by decide)⟩

/-- A step of the C1 cycle state at `0x200` executes the clear-screen word
`0x00E0` and advances to `0x202`. -/
theorem c1_step200 (t : Timers) :
    (mStateC1 0x200 t).tick [] 0 = some (mStateC1 0x202 t.tick) := by
  have hdec : Instruction.new (mStateC1 0x200 t).heap.elements MEMORY_SIZE
      (mStateC1 0x200 t).registers.program_counter = some .ClearScreen := by
    show Instruction.new (Heap.new [0x00, 0xE0, 0x12, 0x00]).elements MEMORY_SIZE 0x200
        = some .ClearScreen
    rfl
  rw [Machine.tick_eq _ _ _ _ hdec]
  simp [mStateC1, Machine.execInstr, Display.clear]

/-- A step of the C1 cycle state at `0x202` executes the jump `0x1200`,
whose target `0x200` differs from its own address, so it jumps (it does not
pause) back to `0x200`. -/
theorem c1_step202 (t : Timers) :
    (mStateC1 0x202 t).tick [] 0 = some (mStateC1 0x200 t.tick) := by
  have hdec : Instruction.new (mStateC1 0x202 t).heap.elements MEMORY_SIZE
      (mStateC1 0x202 t).registers.program_counter = some (.Goto 0x200) := by
    show Instruction.new (Heap.new [0x00, 0xE0, 0x12, 0x00]).elements MEMORY_SIZE 0x202
        = some (.Goto 0x200)
    rfl
  rw [Machine.tick_eq _ _ _ _ hdec]
  simp [mStateC1, Machine.execInstr]

/-- The C1 machine after `n` steps: cleared display, alternating program
counter (even step counts at `0x200`, odd at `0x202`), timers ticked `n`
times. -/
theorem c1_stepN : ∀ n, machineC1.stepN [] 0 n
    = some (mStateC1 (if n % 2 = 0 then 0x200 else 0x202) (Timers.new.tickN n)) := by
  intro n
  induction n with
  | zero => rfl
  | succ n ih =>
    rw [Machine.stepN, ih]
    show (mStateC1 _ _).tick [] 0 = _
    by_cases h : n % 2 = 0
    · rw [if_pos h, c1_step200, if_neg (by omega)]
      rfl
    · rw [if_neg h, c1_step202, if_pos (by omega)]
      rfl

/-- C1 counterexample: on the third step the program counter of the
`0x00E0; 0x1200` machine is `0x202`, not `0x200` — the jump at `0x202` is
not a jump to its own address, so the machine is never paused and keeps
looping between the two instructions. -/
theorem c1_not_paused :
    pcOf (machineC1.stepN [] 0 3) = some 0x202 ∧ (0x202 : Nat) ≠ 0x200 := by decide

/-- C1 (amended): after two steps the framebuffer is all-unset and the
program counter is `0x200`; every further even number of steps returns the
counter to `0x200` and every odd number leaves it at `0x202` — the machine
loops clear-screen/jump forever instead of pausing. -/
theorem c1_end_to_end :
    (∃ m2, machineC1.stepN [] 0 2 = some m2 ∧
      m2.registers.program_counter = 0x200 ∧ ∀ j, m2.display.bits j = false) ∧
    (∀ k, pcOf (machineC1.stepN [] 0 (2 + 2 * k)) = some 0x200 ∧
          pcOf (machineC1.stepN [] 0 (3 + 2 * k)) = some 0x202) := by
  constructor
  · exact ⟨_, c1_stepN 2, rfl, fun j => rfl⟩
  · intro k
    constructor
    · rw [pcOf, c1_stepN, if_pos (by omega)]
      rfl
    · rw [pcOf, c1_stepN, if_neg (by omega)]
      rfl

end Crust8
